import Mathlib

/-!
Shallow embedding of the skill-tool orchestration code in
`chat_shell/chat_shell/tools/skill_factory.py` (functions
`prepare_skill_tools`, `_load_skill_mcp_tools`, `_safe_disconnect_client`).

External collaborators (binary download transport, the tool-provider
registry, the MCP client) are modelled as an oracle environment `Env`;
side effects (span events, loader registration, prompt injection,
disconnects) are recorded in an explicit event trace.
-/

namespace SkillFactory

/-- Binary payload of a skill code bundle (`bytes` in the source). -/
abbrev Bytes := List Nat

/-- One remote (MCP) endpoint configuration value (opaque blob). -/
abbrev ServerCfg := String

/-- A provider configuration dict (opaque contents; empty dict is falsy). -/
abbrev ProviderCfg := List String

/-- A created tool handle, identified by its name. -/
abbrev Tool := String

/-- An MCP client session object (at most one exists per batch call). -/
abbrev Client := Unit

/-- One skill configuration dict, as read by `prepare_skill_tools`
(`skill_config.get(...)` fields). `none` models a missing key. -/
structure SkillConfig where
  name : Option String := none
  toolDecls : List String := []
  provider : Option ProviderCfg := none
  skillId : Option Int := none
  skillUserId : Option Int := none
  mcpServers : Option (List (String × ServerCfg)) := none
  prompt : String := ""
deriving DecidableEq

/-- Python truthiness of `provider_config` (`None` and `{}` are falsy). -/
def truthyProvider : Option ProviderCfg → Bool
  | none => false
  | some p => !p.isEmpty

/-- Python truthiness of `skill_id` (`None` and `0` are falsy). -/
def truthyId : Option Int → Bool
  | none => false
  | some n => n != 0

/-- Python truthiness of `mcpServers` (`None` and `{}` are falsy). -/
def truthyServers : Option (List (String × ServerCfg)) → Bool
  | none => false
  | some l => !l.isEmpty

/-- Python truthiness of a string (empty string is falsy). -/
def truthyStr (s : String) : Bool := !s.isEmpty

/-- `skill_config.get("name", "unknown")`. -/
def skillNameOf (cfg : SkillConfig) : String := cfg.name.getD "unknown"

/-- `skill_config.get("mcpServers")` viewed as an association list. -/
def serversOf (cfg : SkillConfig) : List (String × ServerCfg) :=
  cfg.mcpServers.getD []

/-- `should_preload = preload_skills is not None and skill_name in preload_skills`. -/
def shouldPreload (pre : Option (List String)) (n : String) : Bool :=
  match pre with
  | none => false
  | some l => l.contains n

/-- `user_selected_skills is not None and skill_name in user_selected_skills`. -/
def isUserSelected (sel : Option (List String)) (n : String) : Bool :=
  match sel with
  | none => false
  | some l => l.contains n

/-- `str.rstrip("/")`: drop every trailing slash. -/
def rstripSlash (s : String) : String :=
  String.mk ((s.data.reverse.dropWhile (fun c => c = '/')).reverse)

/-- The MCP batch key: `f"{skill_name}_{server_name}"`. -/
def mcpKey (skillName serverName : String) : String :=
  skillName ++ "_" ++ serverName

/-- Observable effects of one `prepare_skill_tools` call, in program order. -/
inductive Event where
  | promptPreloaded (skillName : String) (userSelected : Bool)
  | codeLoadSkipped (skillName : String)
  | downloadStarted (url : String) (skillName : String)
  | downloadFailedLogged (skillName : String)
  | providerLoadCalled (skillName : String) (pc : ProviderCfg) (data : Bytes)
      (isPublic : Bool)
  | providerLoadResult (skillName : String) (loaded : Bool)
  | providerLoadErrorLogged (skillName : String) (msg : String)
  | registeredTools (skillName : String) (tools : List Tool)
  | mcpConnectStarted (configs : List (String × ServerCfg)) (timeoutSecs : Nat)
  | mcpDisconnectInvoked
  | mcpDisconnectErrorLogged (msg : String)
  | mcpLoadUnexpectedError (msg : String)
deriving DecidableEq

/-- Outcome of the single batched `MCPClient` construct-and-connect attempt
in `_load_skill_mcp_tools`. -/
inductive ConnectOutcome where
  | ctorRaises (msg : String)
  | timeout
  | connectRaises (msg : String)
  | returns (isConnected : Bool) (toolsIfConnected : List Tool)
deriving DecidableEq

/-- Oracle environment: the external collaborators of `prepare_skill_tools`.
`download` models `_download_skill_binary` (which catches every exception and
returns `None` on failure), `ensureProviderLoaded` models
`registry.ensure_provider_loaded` (which may raise), `createTools` models
`registry.create_tools_for_skill`, `connectOutcome` the batched MCP connect,
and `disconnectBehavior` what `client.disconnect()` does when invoked. -/
structure Env where
  remoteUrlRaw : String
  download : String → String → Option Bytes
  ensureProviderLoaded : String → ProviderCfg → Bytes → Bool → Except String Bool
  createTools : SkillConfig → List Tool
  connectOutcome : ConnectOutcome
  disconnectBehavior : Except String Unit

/-- Events of the `ensure_provider_loaded` call and its surrounding
try/except (lines 364-402 of the source). -/
def providerCallEvents (env : Env) (n : String) (pc : ProviderCfg) (b : Bytes) :
    List Event :=
  match env.ensureProviderLoaded n pc b true with
  | .ok loaded =>
      [Event.providerLoadCalled n pc b true, Event.providerLoadResult n loaded]
  | .error msg =>
      [Event.providerLoadCalled n pc b true, Event.providerLoadErrorLogged n msg]

/-- `download_url = f"{remote_url}/skills/{skill_id}/binary"`. -/
def downloadUrlFor (remoteUrl : String) (sid : Int) : String :=
  remoteUrl ++ "/skills/" ++ toString sid ++ "/binary"

/-- The public-skill code-loading block (lines 344-402 of the source): the
try block that downloads the bundle when `remote_url and skill_id` is truthy
and loads the provider when nonempty binary data was obtained; every failure
(including an exception from `ensure_provider_loaded`) is caught and logged. -/
def loadProviderPhase (env : Env) (remoteUrl : String) (n : String)
    (pc : ProviderCfg) (sid : Int) : List Event :=
  if truthyStr remoteUrl && (sid != 0) then
    Event.downloadStarted (downloadUrlFor remoteUrl sid) n ::
      (match env.download (downloadUrlFor remoteUrl sid) n with
       | some b =>
         if b.isEmpty then [Event.downloadFailedLogged n]
         else providerCallEvents env n pc b
       | none => [Event.downloadFailedLogged n])
  else [Event.downloadFailedLogged n]

/-- The body of the per-skill loop of `prepare_skill_tools` (lines 251-477):
returns the tools this skill contributes to the immediate `tools` list, the
prefixed MCP endpoint pairs it merges into `skill_mcp_configs`, and its
event trace. -/
def processSkill (env : Env) (remoteUrl : String) (hasLoader : Bool)
    (pre sel : Option (List String)) (cfg : SkillConfig) :
    List Tool × List (String × ServerCfg) × List Event :=
  let n := skillNameOf cfg
  let sp := shouldPreload pre n
  let mcpPairs :=
    if truthyServers cfg.mcpServers && sp then
      (serversOf cfg).map (fun p => (mcpKey n p.1, p.2))
    else []
  if cfg.toolDecls.isEmpty then
    ([], mcpPairs,
      if sp && hasLoader && truthyStr cfg.prompt then
        [Event.promptPreloaded n (isUserSelected sel n)]
      else [])
  else
    let provEvents :=
      if truthyProvider cfg.provider && truthyId cfg.skillId then
        if cfg.skillUserId = some 0 then
          loadProviderPhase env remoteUrl n (cfg.provider.getD []) (cfg.skillId.getD 0)
        else [Event.codeLoadSkipped n]
      else []
    let skillTools := env.createTools cfg
    if skillTools.isEmpty then ([], mcpPairs, provEvents)
    else
      let regEvents :=
        if hasLoader then [Event.registeredTools n skillTools] else []
      if sp then
        (skillTools, mcpPairs,
          provEvents ++ regEvents ++
            (if hasLoader && truthyStr cfg.prompt then
              [Event.promptPreloaded n (isUserSelected sel n)]
            else []))
      else ([], mcpPairs, provEvents ++ regEvents)

/-- Python dict assignment `m[k] = v`: replace in place if the key exists,
otherwise append (insertion order preserved). -/
def insertKV (m : List (String × ServerCfg)) (k : String) (v : ServerCfg) :
    List (String × ServerCfg) :=
  if m.any (fun p => p.1 = k) then
    m.map (fun p => if p.1 = k then (k, v) else p)
  else m ++ [(k, v)]

/-- Sequential dict assignments of a list of key/value pairs. -/
def mergeInto (m : List (String × ServerCfg)) :
    List (String × ServerCfg) → List (String × ServerCfg)
  | [] => m
  | p :: ps => mergeInto (insertKV m p.1 p.2) ps

/-- The per-skill loop with its three accumulators
(`tools`, `skill_mcp_configs`, event trace). -/
def processAll (env : Env) (remoteUrl : String) (hasLoader : Bool)
    (pre sel : Option (List String))
    (acc : List Tool × List (String × ServerCfg) × List Event) :
    List SkillConfig → List Tool × List (String × ServerCfg) × List Event
  | [] => acc
  | cfg :: rest =>
      let r := processSkill env remoteUrl hasLoader pre sel cfg
      processAll env remoteUrl hasLoader pre sel
        (acc.1 ++ r.1, mergeInto acc.2.1 r.2.1, acc.2.2 ++ r.2.2) rest

/-- `_safe_disconnect_client`: awaits `client.disconnect()` inside a
try/except that logs and swallows any exception, so it always returns
normally (`Except.ok`). -/
def safeDisconnectClient (disc : Except String Unit) :
    Except String (List Event) :=
  match disc with
  | .ok _ => .ok [Event.mcpDisconnectInvoked]
  | .error e => .ok [Event.mcpDisconnectInvoked, Event.mcpDisconnectErrorLogged e]

/-- The events `_safe_disconnect_client` records. -/
def safeDisconnectEvents (disc : Except String Unit) : List Event :=
  match disc with
  | .ok _ => [Event.mcpDisconnectInvoked]
  | .error e => [Event.mcpDisconnectInvoked, Event.mcpDisconnectErrorLogged e]

/-- `_load_skill_mcp_tools` (lines 512-601): early-returns on an empty
config map; otherwise constructs one `MCPClient` over the merged configs,
connects it under a 30 second timeout, and on success returns its tools and
the client, while on `client not ready`, timeout, or any exception it
safely disconnects the client (when one was constructed) and returns empty
lists. No branch propagates an exception. -/
def loadSkillMcpTools (mcpConfigs : List (String × ServerCfg))
    (outcome : ConnectOutcome) (disc : Except String Unit) :
    List Tool × List Client × List Event :=
  if mcpConfigs.isEmpty then ([], [], [])
  else
    match outcome with
    | .ctorRaises e => ([], [], [Event.mcpLoadUnexpectedError e])
    | .timeout =>
        ([], [], Event.mcpConnectStarted mcpConfigs 30 :: safeDisconnectEvents disc)
    | .connectRaises _ =>
        ([], [], Event.mcpConnectStarted mcpConfigs 30 :: safeDisconnectEvents disc)
    | .returns true ts =>
        (ts, [()], [Event.mcpConnectStarted mcpConfigs 30])
    | .returns false _ =>
        ([], [], Event.mcpConnectStarted mcpConfigs 30 :: safeDisconnectEvents disc)

/-- `prepare_skill_tools` (lines 173-500): run the per-skill loop over the
configs in input order, then, if any MCP endpoint configs were batched,
run the single batched connect and extend `tools` / `mcp_clients` with its
results. Returns `(tools, mcp_clients)` plus the event trace. -/
def prepareSkillTools (env : Env) (hasLoader : Bool)
    (pre sel : Option (List String)) (cfgs : List SkillConfig) :
    List Tool × List Client × List Event :=
  let remoteUrl := rstripSlash env.remoteUrlRaw
  let core := processAll env remoteUrl hasLoader pre sel ([], [], []) cfgs
  if core.2.1.isEmpty then (core.1, [], core.2.2)
  else
    let r := loadSkillMcpTools core.2.1 env.connectOutcome env.disconnectBehavior
    (core.1 ++ r.1, r.2.1, core.2.2 ++ r.2.2)

/-! ### Specification-side characterizations -/

/-- Concatenation of the images of a list under a list-valued function. -/
def flatMapL (f : α → List β) : List α → List β
  | [] => []
  | a :: l => f a ++ flatMapL f l

/-- Tools a single skill contributes to the immediate `tools` list:
its created handles exactly when it is preloaded and declares tools. -/
def activeToolsOf (env : Env) (pre : Option (List String)) (cfg : SkillConfig) :
    List Tool :=
  if shouldPreload pre (skillNameOf cfg) && !cfg.toolDecls.isEmpty then
    env.createTools cfg
  else []

/-- Prefixed MCP endpoint pairs a single skill merges into the batch:
nonempty exactly when the skill has truthy `mcpServers` and is preloaded. -/
def mcpPairsOf (pre : Option (List String)) (cfg : SkillConfig) :
    List (String × ServerCfg) :=
  if truthyServers cfg.mcpServers && shouldPreload pre (skillNameOf cfg) then
    (serversOf cfg).map (fun p => (mcpKey (skillNameOf cfg) p.1, p.2))
  else []

/-- The merged batch dict passed to the single MCP connect. -/
def mergedMcpConfigs (pre : Option (List String)) (cfgs : List SkillConfig) :
    List (String × ServerCfg) :=
  mergeInto [] (flatMapL (mcpPairsOf pre) cfgs)

/-- Tools contributed by the batched MCP connect. -/
def batchToolsOf (o : ConnectOutcome) (m : List (String × ServerCfg)) :
    List Tool :=
  if m.isEmpty then []
  else
    match o with
    | .returns true ts => ts
    | _ => []

/-- Clients returned from the batched MCP connect. -/
def batchClientsOf (o : ConnectOutcome) (m : List (String × ServerCfg)) :
    List Client :=
  if m.isEmpty then []
  else
    match o with
    | .returns true _ => [()]
    | _ => []

/-- Event trace of a single skill's loop iteration. -/
def skillEventsOf (env : Env) (hasLoader : Bool)
    (pre sel : Option (List String)) (cfg : SkillConfig) : List Event :=
  (processSkill env (rstripSlash env.remoteUrlRaw) hasLoader pre sel cfg).2.2

/-- Event trace of the batch phase of `prepare_skill_tools`. -/
def batchEventsOf (o : ConnectOutcome) (disc : Except String Unit)
    (m : List (String × ServerCfg)) : List Event :=
  if m.isEmpty then [] else (loadSkillMcpTools m o disc).2.2

/-- The prompt-injection `preload_skill_prompt` call a single skill makes
(at most one): it requires preload, a loader tool, nonempty prompt text,
and — when the skill declares tools — a nonempty created-handle list. -/
def promptEventOf (env : Env) (hasLoader : Bool)
    (pre sel : Option (List String)) (cfg : SkillConfig) : List Event :=
  if shouldPreload pre (skillNameOf cfg) && hasLoader && truthyStr cfg.prompt
      && (cfg.toolDecls.isEmpty || !(env.createTools cfg).isEmpty) then
    [Event.promptPreloaded (skillNameOf cfg) (isUserSelected sel (skillNameOf cfg))]
  else []

/-- Is this event a prompt injection? -/
def isPromptEvent : Event → Bool
  | .promptPreloaded _ _ => true
  | _ => false

/-- Is this event part of the code-bundle fetch / provider-load path? -/
def isCodeFetchEvent : Event → Bool
  | .downloadStarted _ _ => true
  | .downloadFailedLogged _ => true
  | .providerLoadCalled _ _ _ _ => true
  | .providerLoadResult _ _ => true
  | .providerLoadErrorLogged _ _ => true
  | _ => false

/-- Is this event the start of the batched MCP connect? -/
def isConnectStartEvent : Event → Bool
  | .mcpConnectStarted _ _ => true
  | _ => false

/-- Did the batched connect fail (anything other than a ready client)? -/
def connectFailed : ConnectOutcome → Bool
  | .returns true _ => false
  | _ => true

/-- Was an `MCPClient` object actually constructed? -/
def clientWasCreated : ConnectOutcome → Bool
  | .ctorRaises _ => false
  | _ => true

/-! ### Structural lemmas -/

theorem mergeInto_append (m : List (String × ServerCfg))
    (a b : List (String × ServerCfg)) :
    mergeInto m (a ++ b) = mergeInto (mergeInto m a) b := by
  induction a generalizing m with
  | nil => rfl
  | cons p ps ih => simpa [mergeInto] using ih (insertKV m p.1 p.2)

theorem processAll_spec (env : Env) (u : String) (hl : Bool)
    (pre sel : Option (List String)) (cfgs : List SkillConfig)
    (acc : List Tool × List (String × ServerCfg) × List Event) :
    processAll env u hl pre sel acc cfgs =
      (acc.1 ++ flatMapL (fun c => (processSkill env u hl pre sel c).1) cfgs,
       mergeInto acc.2.1 (flatMapL (fun c => (processSkill env u hl pre sel c).2.1) cfgs),
       acc.2.2 ++ flatMapL (fun c => (processSkill env u hl pre sel c).2.2) cfgs) := by
  induction cfgs generalizing acc with
  | nil => simp [processAll, flatMapL, mergeInto]
  | cons cfg rest ih =>
      simp only [processAll, flatMapL, ih]
      refine Prod.ext ?_ (Prod.ext ?_ ?_) <;>
        simp [mergeInto_append, List.append_assoc]

theorem processSkill_fst (env : Env) (u : String) (hl : Bool)
    (pre sel : Option (List String)) (cfg : SkillConfig) :
    (processSkill env u hl pre sel cfg).1 = activeToolsOf env pre cfg := by
  unfold processSkill activeToolsOf
  rcases hd : cfg.toolDecls.isEmpty with _ | _
  · rcases ht : (env.createTools cfg).isEmpty with _ | _
    · rcases hsp : shouldPreload pre (skillNameOf cfg) with _ | _ <;> simp [hd, ht, hsp]
    · simp only [hd, Bool.false_eq_true, if_false, ht, if_true]
      have : env.createTools cfg = [] := List.isEmpty_iff.mp ht
      rcases hsp : shouldPreload pre (skillNameOf cfg) with _ | _ <;> simp [this, hsp]
  · simp [hd]

theorem processSkill_mcp (env : Env) (u : String) (hl : Bool)
    (pre sel : Option (List String)) (cfg : SkillConfig) :
    (processSkill env u hl pre sel cfg).2.1 = mcpPairsOf pre cfg := by
  unfold processSkill mcpPairsOf
  rcases hd : cfg.toolDecls.isEmpty with _ | _
  · rcases ht : (env.createTools cfg).isEmpty with _ | _ <;>
      rcases hsp : shouldPreload pre (skillNameOf cfg) with _ | _ <;>
        simp [hd, ht, hsp]
  · simp [hd]

theorem prepare_fst (env : Env) (hl : Bool) (pre sel : Option (List String))
    (cfgs : List SkillConfig) :
    (prepareSkillTools env hl pre sel cfgs).1 =
      flatMapL (activeToolsOf env pre) cfgs ++
        batchToolsOf env.connectOutcome (mergedMcpConfigs pre cfgs) := by
  unfold prepareSkillTools
  simp only [processAll_spec, List.nil_append]
  have hmap : (flatMapL (fun c =>
      (processSkill env (rstripSlash env.remoteUrlRaw) hl pre sel c).1) cfgs)
      = flatMapL (activeToolsOf env pre) cfgs := by
    induction cfgs with
    | nil => rfl
    | cons c cs ih => simp [flatMapL, ih, processSkill_fst]
  have hmcp : (flatMapL (fun c =>
      (processSkill env (rstripSlash env.remoteUrlRaw) hl pre sel c).2.1) cfgs)
      = flatMapL (mcpPairsOf pre) cfgs := by
    induction cfgs with
    | nil => rfl
    | cons c cs ih => simp [flatMapL, ih, processSkill_mcp]
  rw [hmap, hmcp]
  rcases hm : (mergeInto [] (flatMapL (mcpPairsOf pre) cfgs)).isEmpty with _ | _
  · rcases ho : env.connectOutcome with e | _ | e | ⟨b, ts⟩
    · simp [loadSkillMcpTools, batchToolsOf, mergedMcpConfigs, hm]
    · simp [loadSkillMcpTools, batchToolsOf, mergedMcpConfigs, hm]
    · simp [loadSkillMcpTools, batchToolsOf, mergedMcpConfigs, hm]
    · rcases b with _ | _ <;>
        simp [loadSkillMcpTools, batchToolsOf, mergedMcpConfigs, hm]
  · simp [batchToolsOf, mergedMcpConfigs, hm]

theorem prepare_clients (env : Env) (hl : Bool) (pre sel : Option (List String))
    (cfgs : List SkillConfig) :
    (prepareSkillTools env hl pre sel cfgs).2.1 =
      batchClientsOf env.connectOutcome (mergedMcpConfigs pre cfgs) := by
  unfold prepareSkillTools
  simp only [processAll_spec, List.nil_append]
  have hmcp : (flatMapL (fun c =>
      (processSkill env (rstripSlash env.remoteUrlRaw) hl pre sel c).2.1) cfgs)
      = flatMapL (mcpPairsOf pre) cfgs := by
    induction cfgs with
    | nil => rfl
    | cons c cs ih => simp [flatMapL, ih, processSkill_mcp]
  rw [hmcp]
  rcases hm : (mergeInto [] (flatMapL (mcpPairsOf pre) cfgs)).isEmpty with _ | _
  · rcases ho : env.connectOutcome with e | _ | e | ⟨b, ts⟩
    · simp [loadSkillMcpTools, batchClientsOf, mergedMcpConfigs, hm]
    · simp [loadSkillMcpTools, batchClientsOf, mergedMcpConfigs, hm]
    · simp [loadSkillMcpTools, batchClientsOf, mergedMcpConfigs, hm]
    · rcases b with _ | _ <;>
        simp [loadSkillMcpTools, batchClientsOf, mergedMcpConfigs, hm]
  · simp [batchClientsOf, mergedMcpConfigs, hm]

theorem prepare_events (env : Env) (hl : Bool) (pre sel : Option (List String))
    (cfgs : List SkillConfig) :
    (prepareSkillTools env hl pre sel cfgs).2.2 =
      flatMapL (skillEventsOf env hl pre sel) cfgs ++
        batchEventsOf env.connectOutcome env.disconnectBehavior
          (mergedMcpConfigs pre cfgs) := by
  unfold prepareSkillTools
  simp only [processAll_spec, List.nil_append]
  have hmcp : (flatMapL (fun c =>
      (processSkill env (rstripSlash env.remoteUrlRaw) hl pre sel c).2.1) cfgs)
      = flatMapL (mcpPairsOf pre) cfgs := by
    induction cfgs with
    | nil => rfl
    | cons c cs ih => simp [flatMapL, ih, processSkill_mcp]
  have hev : (flatMapL (fun c =>
      (processSkill env (rstripSlash env.remoteUrlRaw) hl pre sel c).2.2) cfgs)
      = flatMapL (skillEventsOf env hl pre sel) cfgs := rfl
  rw [hmcp, hev]
  rcases hm : (mergeInto [] (flatMapL (mcpPairsOf pre) cfgs)).isEmpty with _ | _
  · simp [batchEventsOf, mergedMcpConfigs, hm]
  · simp [batchEventsOf, mergedMcpConfigs, hm]

/-- Is this event emitted by the per-skill loop (as opposed to the MCP
batch phase)? -/
def isSkillPhaseEvent : Event → Bool
  | .promptPreloaded _ _ => true
  | .codeLoadSkipped _ => true
  | .downloadStarted _ _ => true
  | .downloadFailedLogged _ => true
  | .providerLoadCalled _ _ _ _ => true
  | .providerLoadResult _ _ => true
  | .providerLoadErrorLogged _ _ => true
  | .registeredTools _ _ => true
  | .mcpConnectStarted _ _ => false
  | .mcpDisconnectInvoked => false
  | .mcpDisconnectErrorLogged _ => false
  | .mcpLoadUnexpectedError _ => false

theorem flatMapL_append (f : α → List β) (a b : List α) :
    flatMapL f (a ++ b) = flatMapL f a ++ flatMapL f b := by
  induction a with
  | nil => rfl
  | cons x xs ih => simp [flatMapL, ih]

theorem flatMapL_filter (f : α → List β) (p : β → Bool) (l : List α) :
    (flatMapL f l).filter p = flatMapL (fun a => (f a).filter p) l := by
  induction l with
  | nil => rfl
  | cons x xs ih => simp [flatMapL, List.filter_append, ih]

theorem filter_eq_nil_of_false {p : α → Bool} {l : List α}
    (h : ∀ e ∈ l, p e = false) : l.filter p = [] := by
  induction l with
  | nil => rfl
  | cons x xs ih =>
      have hx := h x (by simp)
      simp [List.filter, hx, ih (fun e he => h e (by simp [he]))]

theorem providerCallEvents_codeFetch (env : Env) (n : String)
    (pc : ProviderCfg) (b : Bytes) :
    ∀ e ∈ providerCallEvents env n pc b, isCodeFetchEvent e = true := by
  intro e he
  unfold providerCallEvents at he
  revert he
  rcases env.ensureProviderLoaded n pc b true with l | m <;> intro he <;>
    · rcases List.mem_cons.mp he with he | he
      · simp [he, isCodeFetchEvent]
      · simp only [List.mem_singleton] at he
        simp [he, isCodeFetchEvent]

theorem loadProviderPhase_codeFetch (env : Env) (u n : String)
    (pc : ProviderCfg) (sid : Int) :
    ∀ e ∈ loadProviderPhase env u n pc sid, isCodeFetchEvent e = true := by
  intro e he
  unfold loadProviderPhase at he
  split at he
  · rcases List.mem_cons.mp he with he | he
    · simp [he, isCodeFetchEvent]
    · rcases hdl : env.download (downloadUrlFor u sid) n with _ | b <;>
        rw [hdl] at he
      · simp only [List.mem_singleton] at he
        simp [he, isCodeFetchEvent]
      · rcases hb : b.isEmpty with _ | _
        · simp only [hb, Bool.false_eq_true, if_false] at he
          exact providerCallEvents_codeFetch env n pc b e he
        · simp only [hb, if_true, List.mem_singleton] at he
          simp [he, isCodeFetchEvent]
  · simp only [List.mem_singleton] at he
    simp [he, isCodeFetchEvent]

theorem codeFetch_not_prompt (e : Event) (h : isCodeFetchEvent e = true) :
    isPromptEvent e = false := by
  cases e <;> simp_all [isCodeFetchEvent, isPromptEvent]

theorem skillPhase_of_codeFetch (e : Event) (h : isCodeFetchEvent e = true) :
    isSkillPhaseEvent e = true := by
  cases e <;> simp_all [isCodeFetchEvent, isSkillPhaseEvent]

/-- The events of the provider-config branch of one loop iteration. -/
def provEventsOf (env : Env) (u : String) (cfg : SkillConfig) : List Event :=
  if truthyProvider cfg.provider && truthyId cfg.skillId then
    if cfg.skillUserId = some 0 then
      loadProviderPhase env u (skillNameOf cfg) (cfg.provider.getD [])
        (cfg.skillId.getD 0)
    else [Event.codeLoadSkipped (skillNameOf cfg)]
  else []

theorem provEventsOf_no_prompt (env : Env) (u : String) (cfg : SkillConfig) :
    ∀ e ∈ provEventsOf env u cfg, isPromptEvent e = false := by
  intro e he
  unfold provEventsOf at he
  split at he
  · split at he
    · exact codeFetch_not_prompt e (loadProviderPhase_codeFetch env u _ _ _ e he)
    · simp only [List.mem_singleton] at he
      simp [he, isPromptEvent]
  · simp at he

theorem provEventsOf_skillPhase (env : Env) (u : String) (cfg : SkillConfig) :
    ∀ e ∈ provEventsOf env u cfg, isSkillPhaseEvent e = true := by
  intro e he
  unfold provEventsOf at he
  split at he
  · split at he
    · exact skillPhase_of_codeFetch e (loadProviderPhase_codeFetch env u _ _ _ e he)
    · simp only [List.mem_singleton] at he
      simp [he, isSkillPhaseEvent]
  · simp at he

theorem processSkill_events_shape (env : Env) (u : String) (hl : Bool)
    (pre sel : Option (List String)) (cfg : SkillConfig) :
    (processSkill env u hl pre sel cfg).2.2 =
      (if cfg.toolDecls.isEmpty then []
       else provEventsOf env u cfg ++
         (if (env.createTools cfg).isEmpty then []
          else if hl then
            [Event.registeredTools (skillNameOf cfg) (env.createTools cfg)]
          else [])) ++
      (if shouldPreload pre (skillNameOf cfg) && hl && truthyStr cfg.prompt
          && (cfg.toolDecls.isEmpty || !(env.createTools cfg).isEmpty) then
        [Event.promptPreloaded (skillNameOf cfg)
          (isUserSelected sel (skillNameOf cfg))]
      else []) := by
  unfold processSkill provEventsOf
  rcases hd : cfg.toolDecls.isEmpty with _ | _
  · rcases ht : (env.createTools cfg).isEmpty with _ | _ <;>
      rcases hsp : shouldPreload pre (skillNameOf cfg) with _ | _ <;>
        rcases hhl : hl with _ | _ <;> simp [hd, ht, hsp, hhl]
  · simp [hd]

theorem processSkill_prompt_filter (env : Env) (u : String) (hl : Bool)
    (pre sel : Option (List String)) (cfg : SkillConfig) :
    ((processSkill env u hl pre sel cfg).2.2).filter isPromptEvent =
      promptEventOf env hl pre sel cfg := by
  rw [processSkill_events_shape, List.filter_append]
  have h1 : ((if cfg.toolDecls.isEmpty then []
       else provEventsOf env u cfg ++
         (if (env.createTools cfg).isEmpty then []
          else if hl then
            [Event.registeredTools (skillNameOf cfg) (env.createTools cfg)]
          else [])) : List Event).filter isPromptEvent = [] := by
    apply filter_eq_nil_of_false
    intro e he
    split at he
    · simp at he
    · rcases List.mem_append.mp he with he | he
      · exact provEventsOf_no_prompt env u cfg e he
      · split at he
        · simp at he
        · split at he
          · simp only [List.mem_singleton] at he
            simp [he, isPromptEvent]
          · simp at he
  rw [h1, List.nil_append]
  unfold promptEventOf
  split
  · simp [isPromptEvent]
  · rfl

theorem processSkill_skillPhase (env : Env) (u : String) (hl : Bool)
    (pre sel : Option (List String)) (cfg : SkillConfig) :
    ∀ e ∈ (processSkill env u hl pre sel cfg).2.2, isSkillPhaseEvent e = true := by
  intro e he
  rw [processSkill_events_shape] at he
  rcases List.mem_append.mp he with he | he
  · split at he
    · simp at he
    · rcases List.mem_append.mp he with he | he
      · exact provEventsOf_skillPhase env u cfg e he
      · split at he
        · simp at he
        · split at he
          · simp only [List.mem_singleton] at he
            simp [he, isSkillPhaseEvent]
          · simp at he
  · split at he
    · simp only [List.mem_singleton] at he
      simp [he, isSkillPhaseEvent]
    · simp at he

theorem safeDisconnectEvents_not_skillPhase (disc : Except String Unit) :
    ∀ e ∈ safeDisconnectEvents disc, isSkillPhaseEvent e = false := by
  rcases disc with _ | m <;> intro e he <;>
    rcases List.mem_cons.mp he with he | he <;>
      simp_all [safeDisconnectEvents, isSkillPhaseEvent]

theorem batchEvents_not_skillPhase (o : ConnectOutcome)
    (disc : Except String Unit) (m : List (String × ServerCfg)) :
    ∀ e ∈ batchEventsOf o disc m, isSkillPhaseEvent e = false := by
  intro e he
  unfold batchEventsOf loadSkillMcpTools at he
  rcases hm : m.isEmpty with _ | _ <;> rw [hm] at he
  · simp only [Bool.false_eq_true, if_false] at he
    rcases o with msg | _ | msg | ⟨b, ts⟩
    · simp only [List.mem_singleton] at he
      simp [he, isSkillPhaseEvent]
    · rcases List.mem_cons.mp he with he | he
      · simp [he, isSkillPhaseEvent]
      · exact safeDisconnectEvents_not_skillPhase disc e he
    · rcases List.mem_cons.mp he with he | he
      · simp [he, isSkillPhaseEvent]
      · exact safeDisconnectEvents_not_skillPhase disc e he
    · rcases b with _ | _
      · rcases List.mem_cons.mp he with he | he
        · simp [he, isSkillPhaseEvent]
        · exact safeDisconnectEvents_not_skillPhase disc e he
      · simp only [List.mem_singleton] at he
        simp [he, isSkillPhaseEvent]
  · simp at he

theorem prepare_prompt_filter (env : Env) (hl : Bool)
    (pre sel : Option (List String)) (cfgs : List SkillConfig) :
    ((prepareSkillTools env hl pre sel cfgs).2.2).filter isPromptEvent =
      flatMapL (promptEventOf env hl pre sel) cfgs := by
  rw [prepare_events, List.filter_append, flatMapL_filter]
  have h2 : (batchEventsOf env.connectOutcome env.disconnectBehavior
      (mergedMcpConfigs pre cfgs)).filter isPromptEvent = [] := by
    apply filter_eq_nil_of_false
    intro e he
    have hb := batchEvents_not_skillPhase _ _ _ e he
    cases e <;> simp_all [isSkillPhaseEvent, isPromptEvent]
  rw [h2, List.append_nil]
  congr 1
  funext c
  exact processSkill_prompt_filter env _ hl pre sel c

theorem mem_insertKV (m : List (String × ServerCfg)) (k : String)
    (v : ServerCfg) : ∀ kv ∈ insertKV m k v, kv ∈ m ∨ kv = (k, v) := by
  intro kv hkv
  unfold insertKV at hkv
  split at hkv
  · rcases List.mem_map.mp hkv with ⟨p, hp, hfp⟩
    by_cases hk : p.1 = k
    · right
      rw [if_pos hk] at hfp
      exact hfp.symm
    · left
      rw [if_neg hk] at hfp
      exact hfp ▸ hp
  · rcases List.mem_append.mp hkv with h | h
    · exact Or.inl h
    · simp only [List.mem_singleton] at h
      exact Or.inr h

theorem mem_mergeInto (ps : List (String × ServerCfg)) :
    ∀ (m : List (String × ServerCfg)) kv, kv ∈ mergeInto m ps →
      kv ∈ m ∨ kv ∈ ps := by
  induction ps with
  | nil => intro m kv h; exact Or.inl h
  | cons p rest ih =>
      intro m kv h
      rcases ih (insertKV m p.1 p.2) kv h with h2 | h2
      · rcases mem_insertKV m p.1 p.2 kv h2 with h3 | h3
        · exact Or.inl h3
        · right
          simp [h3]
      · right
        exact List.mem_cons_of_mem p h2

theorem mem_flatMapL (f : α → List β) (l : List α) (b : β) :
    b ∈ flatMapL f l ↔ ∃ a ∈ l, b ∈ f a := by
  induction l with
  | nil => simp [flatMapL]
  | cons x xs ih =>
      simp only [flatMapL, List.mem_append, ih, List.mem_cons]
      constructor
      · rintro (h | ⟨a, ha, hb⟩)
        · exact ⟨x, Or.inl rfl, h⟩
        · exact ⟨a, Or.inr ha, hb⟩
      · rintro ⟨a, ha | ha, hb⟩
        · exact Or.inl (ha ▸ hb)
        · exact Or.inr ⟨a, ha, hb⟩

theorem append_cons_eq_of_not_mem {α : Type} (c : α) :
    ∀ (l1 : List α) (r1 l2 r2 : List α), c ∉ l1 → c ∉ l2 →
      l1 ++ c :: r1 = l2 ++ c :: r2 → l1 = l2 ∧ r1 = r2 := by
  intro l1
  induction l1 with
  | nil =>
      intro r1 l2 r2 _ h2 heq
      cases l2 with
      | nil => simpa using heq
      | cons y l2' =>
          simp only [List.nil_append, List.cons_append, List.cons.injEq] at heq
          exact absurd (heq.1 ▸ List.mem_cons_self y l2') h2
  | cons x l1' ih =>
      intro r1 l2 r2 h1 h2 heq
      cases l2 with
      | nil =>
          simp only [List.cons_append, List.nil_append, List.cons.injEq] at heq
          exact absurd (heq.1 ▸ List.mem_cons_self x l1') h1
      | cons y l2' =>
          simp only [List.cons_append, List.cons.injEq] at heq
          have hx : c ∉ l1' := fun h => h1 (List.mem_cons_of_mem x h)
          have hy : c ∉ l2' := fun h => h2 (List.mem_cons_of_mem y h)
          rcases ih r1 l2' r2 hx hy heq.2 with ⟨ha, hb⟩
          exact ⟨by rw [heq.1, ha], hb⟩

theorem string_data_inj {s t : String} (h : s.data = t.data) : s = t := by
  cases s
  cases t
  exact congrArg String.mk h

theorem mcpKey_inj (s1 n1 s2 n2 : String)
    (h1 : '_' ∉ s1.data) (h2 : '_' ∉ s2.data)
    (heq : mcpKey s1 n1 = mcpKey s2 n2) : s1 = s2 ∧ n1 = n2 := by
  have hd : s1.data ++ '_' :: n1.data = s2.data ++ '_' :: n2.data := by
    have e1 : (mcpKey s1 n1).data = s1.data ++ '_' :: n1.data := by
      simp [mcpKey, String.data_append]
    have e2 : (mcpKey s2 n2).data = s2.data ++ '_' :: n2.data := by
      simp [mcpKey, String.data_append]
    rw [← e1, ← e2, heq]
  rcases append_cons_eq_of_not_mem '_' s1.data n1.data s2.data n2.data h1 h2 hd
    with ⟨ha, hb⟩
  exact ⟨string_data_inj ha, string_data_inj hb⟩

theorem safeDisconnectEvents_not_connectStart (disc : Except String Unit) :
    ∀ e ∈ safeDisconnectEvents disc, isConnectStartEvent e = false := by
  rcases disc with _ | m <;> intro e he <;>
    rcases List.mem_cons.mp he with he | he <;>
      simp_all [safeDisconnectEvents, isConnectStartEvent]

theorem prepare_connect_count (env : Env) (hl : Bool)
    (pre sel : Option (List String)) (cfgs : List SkillConfig)
    (hm : mergedMcpConfigs pre cfgs ≠ [])
    (hc : clientWasCreated env.connectOutcome = true) :
    ((prepareSkillTools env hl pre sel cfgs).2.2).countP isConnectStartEvent = 1
    ∧ Event.mcpConnectStarted (mergedMcpConfigs pre cfgs) 30 ∈
        (prepareSkillTools env hl pre sel cfgs).2.2 := by
  rw [prepare_events]
  have hcore : (flatMapL (skillEventsOf env hl pre sel) cfgs).countP
      isConnectStartEvent = 0 := by
    apply List.countP_eq_zero.mpr
    intro e he
    rcases (mem_flatMapL _ cfgs e).mp he with ⟨c, _, hec⟩
    have := processSkill_skillPhase env (rstripSlash env.remoteUrlRaw) hl pre sel c
      e hec
    cases e <;> simp_all [isSkillPhaseEvent, isConnectStartEvent]
  have hmm : (mergedMcpConfigs pre cfgs).isEmpty = false :=
    List.isEmpty_eq_false.mpr hm
  have hbatch : batchEventsOf env.connectOutcome env.disconnectBehavior
      (mergedMcpConfigs pre cfgs) =
      Event.mcpConnectStarted (mergedMcpConfigs pre cfgs) 30 ::
        (batchEventsOf env.connectOutcome env.disconnectBehavior
          (mergedMcpConfigs pre cfgs)).tail := by
    unfold batchEventsOf loadSkillMcpTools
    rcases ho : env.connectOutcome with msg | _ | msg | ⟨b, ts⟩
    · rw [ho] at hc
      simp [clientWasCreated] at hc
    · simp [hmm]
    · simp [hmm]
    · rcases b with _ | _ <;> simp [hmm]
  constructor
  · rw [List.countP_append, hcore, hbatch]
    have htail : ((batchEventsOf env.connectOutcome env.disconnectBehavior
        (mergedMcpConfigs pre cfgs)).tail).countP isConnectStartEvent = 0 := by
      apply List.countP_eq_zero.mpr
      intro e he
      have hmem : e ∈ batchEventsOf env.connectOutcome env.disconnectBehavior
          (mergedMcpConfigs pre cfgs) := by
        rw [hbatch]
        exact List.mem_cons_of_mem _ he
      have hns := batchEvents_not_skillPhase env.connectOutcome
        env.disconnectBehavior (mergedMcpConfigs pre cfgs) e hmem
      have hdisc := safeDisconnectEvents_not_connectStart env.disconnectBehavior
      revert he
      unfold batchEventsOf loadSkillMcpTools
      rcases ho : env.connectOutcome with msg | _ | msg | ⟨b, ts⟩
      · rw [ho] at hc
        simp [clientWasCreated] at hc
      · simp only [hmm, Bool.false_eq_true, if_false, List.tail_cons]
        intro he
        exact Bool.not_eq_true _ ▸ by simpa using hdisc e he
      · simp only [hmm, Bool.false_eq_true, if_false, List.tail_cons]
        intro he
        exact Bool.not_eq_true _ ▸ by simpa using hdisc e he
      · rcases b with _ | _
        · simp only [hmm, Bool.false_eq_true, if_false, List.tail_cons]
          intro he
          exact Bool.not_eq_true _ ▸ by simpa using hdisc e he
        · simp only [hmm, Bool.false_eq_true, if_false, List.tail_cons]
          intro he
          simp at he
    rw [List.countP_cons, htail]
    simp [isConnectStartEvent]
  · rw [hbatch]
    exact List.mem_append.mpr (Or.inr (List.mem_cons_self _ _))

theorem flatMapL_eq_nil_of (f : α → List β) (l : List α)
    (h : ∀ a ∈ l, f a = []) : flatMapL f l = [] := by
  induction l with
  | nil => rfl
  | cons x xs ih =>
      simp [flatMapL, h x (by simp), ih (fun a ha => h a (by simp [ha]))]

theorem mcpDisconnectInvoked_mem_safeDisconnectEvents (disc : Except String Unit) :
    Event.mcpDisconnectInvoked ∈ safeDisconnectEvents disc := by
  rcases disc with _ | m <;> simp [safeDisconnectEvents]

theorem batch_connectStart_args (o : ConnectOutcome) (disc : Except String Unit)
    (M m : List (String × ServerCfg)) (t : Nat)
    (h : Event.mcpConnectStarted m t ∈ batchEventsOf o disc M) :
    m = M ∧ t = 30 := by
  unfold batchEventsOf loadSkillMcpTools at h
  rcases hM : M.isEmpty with _ | _ <;> rw [hM] at h
  · simp only [Bool.false_eq_true, if_false] at h
    rcases o with msg | _ | msg | ⟨b, ts⟩
    · simp at h
    · rcases List.mem_cons.mp h with h | h
      · simp only [Event.mcpConnectStarted.injEq] at h
        exact ⟨h.1, h.2⟩
      · have := safeDisconnectEvents_not_connectStart disc _ h
        simp [isConnectStartEvent] at this
    · rcases List.mem_cons.mp h with h | h
      · simp only [Event.mcpConnectStarted.injEq] at h
        exact ⟨h.1, h.2⟩
      · have := safeDisconnectEvents_not_connectStart disc _ h
        simp [isConnectStartEvent] at this
    · rcases b with _ | _
      · rcases List.mem_cons.mp h with h | h
        · simp only [Event.mcpConnectStarted.injEq] at h
          exact ⟨h.1, h.2⟩
        · have := safeDisconnectEvents_not_connectStart disc _ h
          simp [isConnectStartEvent] at this
      · simp only [List.mem_singleton, Event.mcpConnectStarted.injEq] at h
        exact ⟨h.1, h.2⟩
  · simp at h

/-! ### Claim theorems -/

/-- C1: Security gate. For every skill configuration that declares a (truthy)
code provider and skill id, a non-public owner id (anything other than the
reserved sentinel `0`, including a missing one) means no code-bundle download
and no provider load is attempted for that skill: its loop iteration emits no
fetch/load event, its declared tools are still processed into the usual
contribution, and the whole configuration list is still processed in order. -/
theorem c1_security_gate (env : Env) (hl : Bool) (pre sel : Option (List String))
    (xs ys : List SkillConfig) (cfg : SkillConfig)
    (hp : truthyProvider cfg.provider = true)
    (hid : truthyId cfg.skillId = true)
    (hnp : cfg.skillUserId ≠ some 0) :
    (∀ e ∈ (processSkill env (rstripSlash env.remoteUrlRaw) hl pre sel cfg).2.2,
        isCodeFetchEvent e = false) ∧
    (processSkill env (rstripSlash env.remoteUrlRaw) hl pre sel cfg).1 =
      activeToolsOf env pre cfg ∧
    (prepareSkillTools env hl pre sel (xs ++ cfg :: ys)).1 =
      flatMapL (activeToolsOf env pre) (xs ++ cfg :: ys) ++
        batchToolsOf env.connectOutcome (mergedMcpConfigs pre (xs ++ cfg :: ys)) := by
  refine ⟨?_, processSkill_fst env _ hl pre sel cfg,
    prepare_fst env hl pre sel (xs ++ cfg :: ys)⟩
  intro e he
  rw [processSkill_events_shape] at he
  rcases List.mem_append.mp he with he | he
  · split at he
    · simp at he
    · rcases List.mem_append.mp he with he | he
      · unfold provEventsOf at he
        rw [if_pos (by simp [hp, hid]), if_neg hnp] at he
        simp only [List.mem_singleton] at he
        simp [he, isCodeFetchEvent]
      · split at he
        · simp at he
        · split at he
          · simp only [List.mem_singleton] at he
            simp [he, isCodeFetchEvent]
          · simp at he
  · split at he
    · simp only [List.mem_singleton] at he
      simp [he, isCodeFetchEvent]
    · simp at he

/-- Concrete witness for C1: a skill owned by user 5 with a provider and a
skill id; no fetch/load event is emitted and the other skills' tools are
returned. -/
def envW : Env :=
  { remoteUrlRaw := "http://backend/"
    download := fun _ _ => some [1, 2]
    ensureProviderLoaded := fun _ _ _ _ => Except.ok true
    createTools := fun c => c.toolDecls
    connectOutcome := ConnectOutcome.returns true ["mt"]
    disconnectBehavior := Except.ok () }

def cfgNonPublic : SkillConfig :=
  { name := some "priv"
    toolDecls := ["p1"]
    provider := some ["mod"]
    skillId := some 9
    skillUserId := some 5
    prompt := "pp" }

theorem c1_security_gate_witness :
    (∀ e ∈ (processSkill envW (rstripSlash envW.remoteUrlRaw) true
        (some ["priv"]) none cfgNonPublic).2.2, isCodeFetchEvent e = false) ∧
    (processSkill envW (rstripSlash envW.remoteUrlRaw) true
        (some ["priv"]) none cfgNonPublic).1 =
      activeToolsOf envW (some ["priv"]) cfgNonPublic :=
  ⟨(c1_security_gate envW true (some ["priv"]) none [] [] cfgNonPublic
      (by decide) (by decide) (by decide)).1,
   (c1_security_gate envW true (some ["priv"]) none [] [] cfgNonPublic
      (by decide) (by decide) (by decide)).2.1⟩

/-- C2: Session resource safety in `_load_skill_mcp_tools`. Whenever the
batch step runs on a nonempty config map and the `MCPClient` constructor
succeeds, the single client is either returned in `mcp_clients` or its
disconnect is invoked before return — never both, never neither; and
`_safe_disconnect_client` returns normally for every behavior of the
underlying `disconnect()`. -/
theorem c2_session_resource_safety (cfgs : List (String × ServerCfg))
    (o : ConnectOutcome) (disc : Except String Unit)
    (hne : cfgs ≠ []) (hc : clientWasCreated o = true) :
    ((loadSkillMcpTools cfgs o disc).2.1 = [()] ∨
      (loadSkillMcpTools cfgs o disc).2.1 = []) ∧
    ((loadSkillMcpTools cfgs o disc).2.1 = [()] ↔
      Event.mcpDisconnectInvoked ∉ (loadSkillMcpTools cfgs o disc).2.2) ∧
    (∀ d : Except String Unit,
      safeDisconnectClient d = Except.ok (safeDisconnectEvents d)) := by
  have hE : cfgs.isEmpty = false := List.isEmpty_eq_false.mpr hne
  refine ⟨?_, ?_, fun d => by rcases d with _ | m <;> rfl⟩
  · unfold loadSkillMcpTools
    rcases o with msg | _ | msg | ⟨b, ts⟩ <;>
      first
      | (rcases b with _ | _ <;> simp [hE])
      | simp [hE]
  · unfold loadSkillMcpTools
    rcases o with msg | _ | msg | ⟨b, ts⟩
    · simp [clientWasCreated] at hc
    · simp [hE, mcpDisconnectInvoked_mem_safeDisconnectEvents disc]
    · simp [hE, mcpDisconnectInvoked_mem_safeDisconnectEvents disc]
    · rcases b with _ | _
      · simp [hE, mcpDisconnectInvoked_mem_safeDisconnectEvents disc]
      · simp [hE, isConnectStartEvent]

theorem c2_session_resource_safety_witness :
    ((loadSkillMcpTools [("k", "v")] ConnectOutcome.timeout
        (Except.error "discfail")).2.1 = [()] ↔
      Event.mcpDisconnectInvoked ∉ (loadSkillMcpTools [("k", "v")]
        ConnectOutcome.timeout (Except.error "discfail")).2.2) ∧
    (∀ d : Except String Unit,
      safeDisconnectClient d = Except.ok (safeDisconnectEvents d)) :=
  ⟨(c2_session_resource_safety [("k", "v")] ConnectOutcome.timeout
      (Except.error "discfail") (by decide) (by decide)).2.1,
   (c2_session_resource_safety [("k", "v")] ConnectOutcome.timeout
      (Except.error "discfail") (by decide) (by decide)).2.2⟩

/-- Environment for the three-config isolation scenario: the provider load
always raises, and tool creation omits provider-bound tools (yields none for
a skill whose provider is configured, per the registry contract). -/
def envC3 : Env :=
  { remoteUrlRaw := "http://backend/"
    download := fun _ _ => some [1]
    ensureProviderLoaded := fun _ _ _ _ => Except.error "boom"
    createTools := fun c => if truthyProvider c.provider then [] else c.toolDecls
    connectOutcome := ConnectOutcome.returns true []
    disconnectBehavior := Except.ok () }

def cfgC3A : SkillConfig := { name := some "A", toolDecls := ["a1", "a2"] }

def cfgC3B : SkillConfig :=
  { name := some "B"
    toolDecls := ["b1"]
    provider := some ["mod"]
    skillId := some 7
    skillUserId := some 0 }

def cfgC3C : SkillConfig := { name := some "C", toolDecls := ["c1"] }

/-- C3: Provider-load failure isolation. The returned tools and clients of
`prepare_skill_tools` are invariant under any change of the download and
provider-load collaborators (so a raising provider load cannot change them
or propagate), and in the concrete three-skill scenario in which the second
skill's provider load raises, the call still returns the first and third
skills' tools in order, with the raised error caught and logged. -/
theorem c3_provider_failure_isolation :
    (∀ (env : Env) (hl : Bool) (pre sel : Option (List String))
        (cfgs : List SkillConfig) (dl : String → String → Option Bytes)
        (ep : String → ProviderCfg → Bytes → Bool → Except String Bool),
      (prepareSkillTools
          { env with download := dl, ensureProviderLoaded := ep }
          hl pre sel cfgs).1 = (prepareSkillTools env hl pre sel cfgs).1 ∧
      (prepareSkillTools
          { env with download := dl, ensureProviderLoaded := ep }
          hl pre sel cfgs).2.1 = (prepareSkillTools env hl pre sel cfgs).2.1) ∧
    (prepareSkillTools envC3 true (some ["A", "B", "C"]) none
        [cfgC3A, cfgC3B, cfgC3C]).1 = ["a1", "a2", "c1"] ∧
    Event.providerLoadErrorLogged "B" "boom" ∈
      (prepareSkillTools envC3 true (some ["A", "B", "C"]) none
        [cfgC3A, cfgC3B, cfgC3C]).2.2 ∧
    (prepareSkillTools envC3 true (some ["A", "B", "C"]) none
        [cfgC3A, cfgC3B, cfgC3C]).2.1 = [] := by
  refine ⟨?_, by decide, by decide, by decide⟩
  intro env hl pre sel cfgs dl ep
  constructor
  · rw [prepare_fst { env with download := dl, ensureProviderLoaded := ep }
        hl pre sel cfgs, prepare_fst env hl pre sel cfgs]
    rfl
  · rw [prepare_clients { env with download := dl, ensureProviderLoaded := ep }
        hl pre sel cfgs, prepare_clients env hl pre sel cfgs]
    try rfl

/-- C4: Batch remote connect outcome. When endpoint configs were batched,
a constructed client yields exactly one connect attempt, covering the whole
merged batch under the 30-second timeout; a ready connection appends its
tools after the per-skill tools and its client to the session list; every
failure outcome (timeout, transport error, not-ready, constructor failure)
leaves both lists without batch contributions, and the function still
returns. -/
theorem c4_batch_connect_outcome (env : Env) (hl : Bool)
    (pre sel : Option (List String)) (cfgs : List SkillConfig)
    (hm : mergedMcpConfigs pre cfgs ≠ []) :
    (clientWasCreated env.connectOutcome = true →
      ((prepareSkillTools env hl pre sel cfgs).2.2).countP isConnectStartEvent
          = 1 ∧
      Event.mcpConnectStarted (mergedMcpConfigs pre cfgs) 30 ∈
        (prepareSkillTools env hl pre sel cfgs).2.2) ∧
    (∀ ts, env.connectOutcome = ConnectOutcome.returns true ts →
      (prepareSkillTools env hl pre sel cfgs).1 =
        flatMapL (activeToolsOf env pre) cfgs ++ ts ∧
      (prepareSkillTools env hl pre sel cfgs).2.1 = [()]) ∧
    (connectFailed env.connectOutcome = true →
      (prepareSkillTools env hl pre sel cfgs).1 =
        flatMapL (activeToolsOf env pre) cfgs ∧
      (prepareSkillTools env hl pre sel cfgs).2.1 = []) := by
  have hE : (mergedMcpConfigs pre cfgs).isEmpty = false :=
    List.isEmpty_eq_false.mpr hm
  refine ⟨fun hc => prepare_connect_count env hl pre sel cfgs hm hc, ?_, ?_⟩
  · intro ts ho
    rw [prepare_fst, prepare_clients, ho]
    simp [batchToolsOf, batchClientsOf, hE]
  · intro hf
    rw [prepare_fst, prepare_clients]
    rcases ho : env.connectOutcome with msg | _ | msg | ⟨b, ts⟩
    · simp [batchToolsOf, batchClientsOf, hE]
    · simp [batchToolsOf, batchClientsOf, hE]
    · simp [batchToolsOf, batchClientsOf, hE]
    · rcases b with _ | _
      · simp [batchToolsOf, batchClientsOf, hE]
      · rw [ho] at hf
        simp [connectFailed] at hf

def cfgC4 : SkillConfig :=
  { name := some "S", mcpServers := some [("srv", "cfg1")], prompt := "" }

theorem c4_batch_connect_outcome_witness :
    (prepareSkillTools envW true (some ["S"]) none [cfgC4]).1 =
      flatMapL (activeToolsOf envW (some ["S"])) [cfgC4] ++ ["mt"] ∧
    (prepareSkillTools envW true (some ["S"]) none [cfgC4]).2.1 = [()] :=
  (c4_batch_connect_outcome envW true (some ["S"]) none [cfgC4]
    (by decide)).2.1 ["mt"] rfl

theorem truthyStr_of_ne (s : String) (h : s ≠ "") : truthyStr s = true := by
  unfold truthyStr
  rcases hi : s.isEmpty with _ | _
  · rfl
  · exact absurd ((String.isEmpty_iff s).mp hi) h

def cfgC5a : SkillConfig :=
  { name := some "a", mcpServers := some [("b_c", "s1")] }

def cfgC5b : SkillConfig :=
  { name := some "a_b", mcpServers := some [("c", "s2")] }

/-- C5 counterexample: the merge key `skill_name + "_" + server_name` is not
injective on distinct (skill name, endpoint name) pairs — `("a", "b_c")` and
`("a_b", "c")` both map to `"a_b_c"` — and with both skills preloaded the
second assignment overwrites the first, so the merged batch holds one entry
instead of two. -/
theorem c5_counterexample :
    mcpKey "a" "b_c" = mcpKey "a_b" "c" ∧
    (("a", "b_c") : String × String) ≠ ("a_b", "c") ∧
    mergedMcpConfigs (some ["a", "a_b"]) [cfgC5a, cfgC5b] = [("a_b_c", "s2")] := by
  refine ⟨rfl, by decide, by decide⟩

/-- C5 (amended): endpoint configs are merged into the connect batch only
from preloaded skills with truthy endpoint maps, each under the key
`skill_name + "_" + server_name`, and the only batch connect attempted uses
exactly this merged dict under the 30-second timeout; key distinctness for
distinct (skill, endpoint) pairs holds provided the skill names contain no
underscore (without that proviso it can fail, see the counterexample). -/
theorem c5_endpoint_batching_amended (env : Env) (hl : Bool)
    (pre sel : Option (List String)) (cfgs : List SkillConfig)
    (m : List (String × ServerCfg)) (t : Nat)
    (hmem : Event.mcpConnectStarted m t ∈
      (prepareSkillTools env hl pre sel cfgs).2.2) :
    (m = mergedMcpConfigs pre cfgs ∧ t = 30) ∧
    (∀ kv ∈ mergedMcpConfigs pre cfgs, ∃ cfg ∈ cfgs,
      shouldPreload pre (skillNameOf cfg) = true ∧
      truthyServers cfg.mcpServers = true ∧
      ∃ p ∈ serversOf cfg, kv = (mcpKey (skillNameOf cfg) p.1, p.2)) ∧
    (∀ s1 n1 s2 n2 : String, '_' ∉ s1.data → '_' ∉ s2.data →
      (s1, n1) ≠ (s2, n2) → mcpKey s1 n1 ≠ mcpKey s2 n2) := by
  refine ⟨?_, ?_, ?_⟩
  · rw [prepare_events] at hmem
    rcases List.mem_append.mp hmem with h | h
    · exfalso
      rcases (mem_flatMapL _ cfgs _).mp h with ⟨c, _, hec⟩
      have := processSkill_skillPhase env (rstripSlash env.remoteUrlRaw)
        hl pre sel c _ hec
      simp [isSkillPhaseEvent] at this
    · exact batch_connectStart_args _ _ _ _ _ h
  · intro kv hkv
    rcases mem_mergeInto _ [] kv hkv with h | h
    · simp at h
    · rcases (mem_flatMapL _ cfgs kv).mp h with ⟨c, hc, hkc⟩
      refine ⟨c, hc, ?_⟩
      unfold mcpPairsOf at hkc
      split at hkc
      · rename_i hcond
        rw [Bool.and_eq_true] at hcond
        rcases List.mem_map.mp hkc with ⟨p, hp, hpe⟩
        exact ⟨hcond.2, hcond.1, p, hp, hpe.symm⟩
      · simp at hkc
  · intro s1 n1 s2 n2 h1 h2 hne hkeq
    rcases mcpKey_inj s1 n1 s2 n2 h1 h2 hkeq with ⟨hs, hn⟩
    exact hne (by rw [hs, hn])

theorem c5_endpoint_batching_amended_witness :
    ([("S_srv", "cfg1")] : List (String × ServerCfg)) =
      mergedMcpConfigs (some ["S"]) [cfgC4] ∧ (30 : Nat) = 30 :=
  (c5_endpoint_batching_amended envW true (some ["S"]) none [cfgC4]
    [("S_srv", "cfg1")] 30 (by decide)).1

/-- Environment in which the registry creates no tool handle for any skill
(e.g. every declared tool requires a provider that failed to load). -/
def envC6 : Env :=
  { remoteUrlRaw := ""
    download := fun _ _ => none
    ensureProviderLoaded := fun _ _ _ _ => Except.ok true
    createTools := fun _ => []
    connectOutcome := ConnectOutcome.returns true []
    disconnectBehavior := Except.ok () }

def cfgC6 : SkillConfig :=
  { name := some "S", toolDecls := ["t1"], prompt := "P" }

/-- C6 counterexample: a preloaded skill with tool declarations, a loader
tool present, and non-empty prompt text, for which the registry creates zero
handles — the claim requires its prompt to be injected, but the guard
`if skill_tools:` makes the code skip `preload_skill_prompt` entirely. -/
theorem c6_counterexample :
    shouldPreload (some ["S"]) (skillNameOf cfgC6) = true ∧
    cfgC6.toolDecls ≠ [] ∧
    cfgC6.prompt ≠ "" ∧
    ((prepareSkillTools envC6 true (some ["S"]) none [cfgC6]).2.2).filter
      isPromptEvent = [] := by
  refine ⟨by decide, by decide, by decide, by decide⟩

/-- C6 (amended): preloaded skills' created handles appear as a contiguous
block in input order in the returned tools; a preloaded skill with
declarations contributes exactly its created handles; the prompt is injected
whenever additionally a loader tool is present, the prompt is nonempty, and
— when the skill declares tools — at least one handle was created; and
non-preloaded skills contribute nothing to the returned tools. -/
theorem c6_preload_activation_amended (env : Env) (hl : Bool)
    (pre sel : Option (List String)) (xs ys : List SkillConfig)
    (cfg : SkillConfig)
    (hsp : shouldPreload pre (skillNameOf cfg) = true) :
    (prepareSkillTools env hl pre sel (xs ++ cfg :: ys)).1 =
      flatMapL (activeToolsOf env pre) xs ++ activeToolsOf env pre cfg ++
        flatMapL (activeToolsOf env pre) ys ++
        batchToolsOf env.connectOutcome (mergedMcpConfigs pre (xs ++ cfg :: ys)) ∧
    (cfg.toolDecls ≠ [] → activeToolsOf env pre cfg = env.createTools cfg) ∧
    ((hl = true ∧ cfg.prompt ≠ "" ∧
        (cfg.toolDecls = [] ∨ env.createTools cfg ≠ [])) →
      Event.promptPreloaded (skillNameOf cfg) (isUserSelected sel (skillNameOf cfg))
        ∈ (prepareSkillTools env hl pre sel (xs ++ cfg :: ys)).2.2) ∧
    (∀ c ∈ xs ++ cfg :: ys, shouldPreload pre (skillNameOf c) = false →
      activeToolsOf env pre c = []) := by
  refine ⟨?_, ?_, ?_, ?_⟩
  · rw [prepare_fst, flatMapL_append]
    simp [flatMapL, List.append_assoc]
  · intro hd
    simp [activeToolsOf, hsp, List.isEmpty_eq_false.mpr hd]
  · rintro ⟨hhl, hpr, hcr⟩
    have hpe : Event.promptPreloaded (skillNameOf cfg)
        (isUserSelected sel (skillNameOf cfg)) ∈
        flatMapL (promptEventOf env hl pre sel) (xs ++ cfg :: ys) := by
      refine (mem_flatMapL _ _ _).mpr ⟨cfg, by simp, ?_⟩
      unfold promptEventOf
      rw [if_pos]
      · simp
      · rcases hcr with hcr | hcr
        · simp [hsp, hhl, truthyStr_of_ne _ hpr, hcr]
        · simp [hsp, hhl, truthyStr_of_ne _ hpr, List.isEmpty_eq_false.mpr hcr]
    rw [← prepare_prompt_filter] at hpe
    exact List.mem_of_mem_filter hpe
  · intro c _ hspc
    simp [activeToolsOf, hspc]

def cfgC6W : SkillConfig :=
  { name := some "W", toolDecls := ["w1"], prompt := "pw" }

theorem c6_preload_activation_amended_witness :
    Event.promptPreloaded (skillNameOf cfgC6W)
      (isUserSelected none (skillNameOf cfgC6W)) ∈
      (prepareSkillTools envW true (some ["W"]) none [cfgC6W]).2.2 :=
  (c6_preload_activation_amended envW true (some ["W"]) none [] [] cfgC6W
    (by decide)).2.2.1 ⟨rfl, by decide, by decide⟩

/-- C7: Registration regardless of preload. Whenever a skill's declared
tools are actually built (nonempty declarations and a nonempty created
handle list) and a loader tool is present, all its created handles are
registered with the loader under the skill's name — the statement carries no
preload hypothesis, so this holds for preloaded and non-preloaded skills
alike. -/
theorem c7_registration_regardless (env : Env)
    (pre sel : Option (List String)) (xs ys : List SkillConfig)
    (cfg : SkillConfig) (hd : cfg.toolDecls ≠ [])
    (ht : env.createTools cfg ≠ []) :
    Event.registeredTools (skillNameOf cfg) (env.createTools cfg) ∈
      (prepareSkillTools env true pre sel (xs ++ cfg :: ys)).2.2 := by
  have h1 : cfg.toolDecls.isEmpty = false := List.isEmpty_eq_false.mpr hd
  have h2 : (env.createTools cfg).isEmpty = false := List.isEmpty_eq_false.mpr ht
  rw [prepare_events]
  refine List.mem_append.mpr (Or.inl ?_)
  refine (mem_flatMapL _ _ _).mpr ⟨cfg, by simp, ?_⟩
  unfold skillEventsOf
  rw [processSkill_events_shape]
  refine List.mem_append.mpr (Or.inl ?_)
  simp [h1, h2]

theorem c7_registration_regardless_witness :
    Event.registeredTools (skillNameOf cfgC3C) (envW.createTools cfgC3C) ∈
      (prepareSkillTools envW true none none [cfgC3C]).2.2 :=
  c7_registration_regardless envW none none [] [] cfgC3C
    (by decide) (by decide)

/-- C8: Preload determination. A skill is treated as preloaded exactly when
the preload list is not `None` and contains the skill's name; with
`preload_skills = None` no skill is preloaded: no tool is returned, no MCP
client is opened, and no prompt is injected. -/
theorem c8_preload_determination :
    (∀ (pre : Option (List String)) (n : String),
      shouldPreload pre n = true ↔ ∃ l, pre = some l ∧ n ∈ l) ∧
    (∀ (env : Env) (hl : Bool) (sel : Option (List String))
        (cfgs : List SkillConfig),
      (prepareSkillTools env hl none sel cfgs).1 = [] ∧
      (prepareSkillTools env hl none sel cfgs).2.1 = [] ∧
      ((prepareSkillTools env hl none sel cfgs).2.2).filter isPromptEvent
        = []) := by
  constructor
  · intro pre n
    rcases pre with _ | l
    · simp [shouldPreload]
    · simp [shouldPreload, List.elem_iff]
  · intro env hl sel cfgs
    have hA : ∀ c ∈ cfgs, activeToolsOf env none c = [] := by
      intro c _
      simp [activeToolsOf, shouldPreload]
    have h0 : flatMapL (mcpPairsOf none) cfgs = [] :=
      flatMapL_eq_nil_of _ _ (fun c _ => by simp [mcpPairsOf, shouldPreload])
    have hM : mergedMcpConfigs none cfgs = [] := by
      unfold mergedMcpConfigs
      rw [h0]
      rfl
    refine ⟨?_, ?_, ?_⟩
    · rw [prepare_fst, flatMapL_eq_nil_of _ _ hA, hM]
      simp [batchToolsOf]
    · rw [prepare_clients, hM]
      simp [batchClientsOf]
    · rw [prepare_prompt_filter]
      exact flatMapL_eq_nil_of _ _
        (fun c _ => by simp [promptEventOf, shouldPreload])

/-- C9: Deterministic aggregation order. The returned tools are exactly the
per-skill created-handle blocks of preloaded skills in input order followed
by the tools of the batched remote connect, and the sequence of prompt
injections is exactly the per-skill injection events in input order. -/
theorem c9_ordering (env : Env) (hl : Bool) (pre sel : Option (List String))
    (cfgs : List SkillConfig) :
    (prepareSkillTools env hl pre sel cfgs).1 =
      flatMapL (activeToolsOf env pre) cfgs ++
        batchToolsOf env.connectOutcome (mergedMcpConfigs pre cfgs) ∧
    ((prepareSkillTools env hl pre sel cfgs).2.2).filter isPromptEvent =
      flatMapL (promptEventOf env hl pre sel) cfgs :=
  ⟨prepare_fst env hl pre sel cfgs, prepare_prompt_filter env hl pre sel cfgs⟩

/-- C10: Single-session invariant. The returned `mcp_clients` list never
holds more than one client; it is empty when nothing was batched, when the
batch connect failed, and in particular when no skill is both preloaded and
carrying truthy remote endpoints. -/
theorem c10_single_client (env : Env) (hl : Bool)
    (pre sel : Option (List String)) (cfgs : List SkillConfig) :
    (prepareSkillTools env hl pre sel cfgs).2.1.length ≤ 1 ∧
    (mergedMcpConfigs pre cfgs = [] →
      (prepareSkillTools env hl pre sel cfgs).2.1 = []) ∧
    (connectFailed env.connectOutcome = true →
      (prepareSkillTools env hl pre sel cfgs).2.1 = []) ∧
    ((∀ c ∈ cfgs, shouldPreload pre (skillNameOf c) = false ∨
        truthyServers c.mcpServers = false) →
      (prepareSkillTools env hl pre sel cfgs).2.1 = []) := by
  have hcl := prepare_clients env hl pre sel cfgs
  refine ⟨?_, ?_, ?_, ?_⟩
  · rw [hcl]
    unfold batchClientsOf
    split
    · simp
    · rcases env.connectOutcome with msg | _ | msg | ⟨b, ts⟩
      · simp
      · simp
      · simp
      · rcases b with _ | _ <;> simp
  · intro hm0
    rw [hcl, hm0]
    simp [batchClientsOf]
  · intro hf
    rw [hcl]
    rcases ho : env.connectOutcome with msg | _ | msg | ⟨b, ts⟩
    · simp [batchClientsOf]
    · simp [batchClientsOf]
    · simp [batchClientsOf]
    · rcases b with _ | _
      · simp [batchClientsOf]
      · rw [ho] at hf
        simp [connectFailed] at hf
  · intro hno
    have h0 : flatMapL (mcpPairsOf pre) cfgs = [] :=
      flatMapL_eq_nil_of _ _ (fun c hc => by
        rcases hno c hc with h | h <;> simp [mcpPairsOf, h])
    have hM : mergedMcpConfigs pre cfgs = [] := by
      unfold mergedMcpConfigs
      rw [h0]
      rfl
    rw [hcl, hM]
    simp [batchClientsOf]

def envTimeout : Env :=
  { remoteUrlRaw := ""
    download := fun _ _ => none
    ensureProviderLoaded := fun _ _ _ _ => Except.ok false
    createTools := fun c => c.toolDecls
    connectOutcome := ConnectOutcome.timeout
    disconnectBehavior := Except.ok () }

theorem c10_single_client_witness :
    (prepareSkillTools envTimeout true (some ["S"]) none [cfgC4]).2.1.length ≤ 1
    ∧ (prepareSkillTools envTimeout true (some ["S"]) none [cfgC4]).2.1 = [] :=
  ⟨(c10_single_client envTimeout true (some ["S"]) none [cfgC4]).1,
   (c10_single_client envTimeout true (some ["S"]) none [cfgC4]).2.2.1
     (by decide)⟩

theorem c3_provider_failure_isolation_witness :
    (prepareSkillTools envC3 true (some ["A", "B", "C"]) none
        [cfgC3A, cfgC3B, cfgC3C]).1 = ["a1", "a2", "c1"] :=
  c3_provider_failure_isolation.2.1

theorem c8_preload_determination_witness :
    (shouldPreload (some ["A"]) "A" = true ↔
      ∃ l, (some ["A"] : Option (List String)) = some l ∧ "A" ∈ l) ∧
    (prepareSkillTools envW true none none [cfgC3A]).1 = [] :=
  ⟨c8_preload_determination.1 (some ["A"]) "A",
   (c8_preload_determination.2 envW true none [cfgC3A]).1⟩

theorem c9_ordering_witness :
    (prepareSkillTools envW true (some ["W"]) none [cfgC6W]).1 =
      flatMapL (activeToolsOf envW (some ["W"])) [cfgC6W] ++
        batchToolsOf envW.connectOutcome
          (mergedMcpConfigs (some ["W"]) [cfgC6W]) :=
  (c9_ordering envW true (some ["W"]) none [cfgC6W]).1

end SkillFactory

